import Mathlib

/-!
Shallow embedding of the mouse-button → keyboard-shortcut mapping engine of
`backend/routes/mouse_listener.py`, together with theorems checking the
specification's claims about it.

Modelling conventions:
* Python strings are Lean `String`s; the Python string operations used by the
  code (`lower`, `split('+')`, `strip`, indexing, `len`) are rendered as
  executable functions on the underlying character list `String.data`, so that
  concrete runs reduce inside the kernel.
* Timestamps (`time.time()` float seconds) are modelled as exact integer
  milliseconds (`ℤ`).  The source constants `SEQUENCE_TIMEOUT = 0.5` s and
  `SINGLE_KEY_DELAY = 0.3` s become `500` and `300` ms; only comparisons and
  differences of timestamps occur in the code, so the scaling is faithful.
* The `pynput` keyboard side effects (`press`/`release`) are recorded as an
  emitted trace of `KeyAction`s; the OS primitive itself is assumed total.
* `threading.Timer` objects are modelled by identifiers: the engine state
  tracks the identifiers of timers that have been started and neither
  cancelled nor fired (`live_timers`), which lets us state the
  at-most-one-pending-timer invariant.
-/

/-- Models Python `str.lower()` on the character list (ASCII case folding,
which is all the shortcut vocabulary uses). -/
def pyLower (l : List Char) : List Char := l.map Char.toLower

/-- Models Python `str.strip()`: drop whitespace from both ends. -/
def stripChars (l : List Char) : List Char :=
  ((l.dropWhile Char.isWhitespace).reverse.dropWhile Char.isWhitespace).reverse

/-- Models Python `str.split('+')`: split into the (possibly empty) chunks
between occurrences of `'+'`; `"".split('+') == ['']`. -/
def splitPlus : List Char → List (List Char)
  | [] => [[]]
  | c :: cs =>
    let r := splitPlus cs
    if c = '+' then [] :: r
    else
      match r with
      | [] => [[c]]
      | g :: gs => (c :: g) :: gs

/-- Models Python `int(s)` on the strings reachable in `_parse_shortcut`:
optional surrounding whitespace, an optional single sign, then one or more
ASCII digits.  (Python's `int` additionally accepts underscore digit
grouping and non-ASCII digits; nothing in the engine's vocabulary or in the
claims depends on those forms.) -/
def pyInt? (l : List Char) : Option ℤ :=
  let l := stripChars l
  let signed : ℤ × List Char :=
    match l with
    | '-' :: rest => (-1, rest)
    | '+' :: rest => (1, rest)
    | _ => (1, l)
  if signed.2 ≠ [] ∧ signed.2.all Char.isDigit then
    some (signed.1 * (signed.2.foldl (fun acc c => acc * 10 + (c.toNat - 48)) 0 : ℕ))
  else none

/-- Atomic key identity produced by the parser: either a named `pynput`
`Key.<name>` attribute or a single printable character. -/
inductive KeyToken where
  | special (name : String)
  | char (c : Char)
deriving DecidableEq

/-- Association-list lookup with string keys; models `part in d` / `d[part]`
on a Python dict. -/
def lookupStr {α : Type} (k : String) : List (String × α) → Option α
  | [] => none
  | (k', v) :: rest => if k = k' then some v else lookupStr k rest

/-- Models `_modifier_map_win` (note `win` aliases `Key.cmd`, like the source). -/
def _modifier_map : List (String × KeyToken) :=
  [("ctrl", .special "ctrl"), ("cmd", .special "cmd"), ("alt", .special "alt"),
   ("shift", .special "shift"), ("win", .special "cmd")]

/-- Models `_special_keys`. -/
def _special_keys : List (String × KeyToken) :=
  [("enter", .special "enter"), ("tab", .special "tab"), ("space", .special "space"),
   ("backspace", .special "backspace"), ("delete", .special "delete"),
   ("escape", .special "esc"), ("esc", .special "esc"),
   ("up", .special "up"), ("down", .special "down"), ("left", .special "left"),
   ("right", .special "right"),
   ("home", .special "home"), ("end", .special "end"),
   ("pageup", .special "page_up"), ("pagedown", .special "page_down"),
   ("f1", .special "f1"), ("f2", .special "f2"), ("f3", .special "f3"),
   ("f4", .special "f4"), ("f5", .special "f5"), ("f6", .special "f6"),
   ("f7", .special "f7"), ("f8", .special "f8"), ("f9", .special "f9"),
   ("f10", .special "f10"), ("f11", .special "f11"), ("f12", .special "f12")]

/-- Classification of one `+`-separated part inside `_parse_shortcut`'s loop:
strip it, skip it when empty (`ok none`), otherwise try the modifier map, the
special-key map, the function-key branch (`f` followed by an integer that must
land in 1..20; `getattr(Key, f'f{num}')` is always present in that range), a
single printable character, and fail on anything else.  Errors carry the
source's `ValueError` message. -/
def classifyPart (raw : String) : Except String (Option KeyToken) :=
  match stripChars (raw.data) with
  | [] => .ok none
  | c :: cs =>
    let part : String := ⟨c :: cs⟩
    match lookupStr part _modifier_map with
    | some k => .ok (some k)
    | none =>
      match lookupStr part _special_keys with
      | some k => .ok (some k)
      | none =>
        if c = 'f' ∧ cs ≠ [] then
          match pyInt? cs with
          | some n =>
            if 1 ≤ n ∧ n ≤ 20 then .ok (some (.special ("f" ++ Nat.repr n.toNat)))
            else .error ("无效的功能键: " ++ part ++ "，支持 f1-f20")
          | none => .error ("无效的功能键: " ++ part ++ "，支持 f1-f20")
        else
          match cs with
          | [] => .ok (some (.char c))
          | _ => .error ("无效的按键: " ++ part ++ "，支持的按键请查看文档")

/-- The accumulation loop of `_parse_shortcut` over the split parts: the first
part that fails to classify aborts the whole parse with its error. -/
def parseParts : List String → List KeyToken → Except String (List KeyToken)
  | [], acc => .ok acc
  | p :: ps, acc =>
    match classifyPart p with
    | .error e => .error e
    | .ok none => parseParts ps acc
    | .ok (some k) => parseParts ps (acc ++ [k])

/-- The part list `shortcut.lower().split('+')` walked by `_parse_shortcut`. -/
def shortcutParts (shortcut : String) : List String :=
  (splitPlus (pyLower shortcut.data)).map (fun g => ⟨g⟩)

/-- Models `_parse_shortcut`: lower-case the string, split on `'+'`, classify
every part in order, and reject an empty token list.  The `_shortcut_cache`
memoisation in the source caches exactly this pure result, so it is not
modelled separately. -/
def _parse_shortcut (shortcut : String) : Except String (List KeyToken) :=
  match parseParts (shortcutParts shortcut) [] with
  | .error e => .error e
  | .ok keys => if keys = [] then .error "快捷键不能为空" else .ok keys

/-- One call into the OS key-injection primitive. -/
inductive KeyAction where
  | press (k : KeyToken)
  | release (k : KeyToken)
deriving DecidableEq

/-- The two loops shared by `execute_shortcut` and `execute_shortcut_fast`:
press every parsed key in list order, then release every key in reversed
order; the emitted calls are recorded as a trace. -/
def pressReleaseTrace (keys : List KeyToken) : List KeyAction :=
  let pressed := keys.foldl (fun acc k => acc ++ [KeyAction.press k]) []
  keys.reverse.foldl (fun acc k => acc ++ [KeyAction.release k]) pressed

/-- Models `execute_shortcut_fast`: on any failure the exception is swallowed
and `False` is returned; on success the press/release trace is emitted and
`True` is returned.  (The OS primitive is modelled as total, so the only
failure source is the parser.) -/
def execute_shortcut_fast (shortcut : String) : List KeyAction × Bool :=
  match _parse_shortcut shortcut with
  | .ok keys => (pressReleaseTrace keys, true)
  | .error _ => ([], false)

/-- Models `execute_shortcut`: same press/release trace, but a failure is
re-raised as a `ValueError` wrapping the cause's message. -/
def execute_shortcut (shortcut : String) : Except String (List KeyAction) :=
  match _parse_shortcut shortcut with
  | .ok keys => .ok (pressReleaseTrace keys)
  | .error e => .error ("执行快捷键失败: " ++ e)

deriving instance DecidableEq for Except

example : _parse_shortcut "ctrl+c" = .ok [.special "ctrl", .char 'c'] := by decide
example : (_parse_shortcut "f21").isOk = false := by decide
example : (_parse_shortcut "foo").isOk = false := by decide
example : (_parse_shortcut "").isOk = false := by decide
example : _parse_shortcut "f13" = .ok [.special "f13"] := by decide
example : _parse_shortcut "Ctrl+Shift+F1" = .ok [.special "ctrl", .special "shift", .special "f1"] := by decide

/-- Source constant `SEQUENCE_TIMEOUT = 0.5` s, in milliseconds. -/
def SEQUENCE_TIMEOUT : ℤ := 500

/-- Source constant `SINGLE_KEY_DELAY = 0.3` s, in milliseconds. -/
def SINGLE_KEY_DELAY : ℤ := 300

/-- One entry of `sequence_mappings`: `{'sequence': ..., 'action': ..., 'name': ...}`. -/
structure SeqMapping where
  sequence : List String
  action : String
  name : String
deriving DecidableEq

/-- One raw record from the configuration store, as consumed by
`load_mappings` (`btn.get('keyType')`, `btn.get('sequence')`,
`btn.get('action')`, `btn.get('name', '')`).  `none` models an absent key and
Python `None`. -/
structure RawButton where
  keyType : Option String
  sequence : Option (List String)
  action : Option String
  name : Option String
deriving DecidableEq

/-- Models Python dict assignment `d[k] = v`: overwrite in place, insertion
order preserved otherwise. -/
def insertAssoc (k v : String) : List (String × String) → List (String × String)
  | [] => [(k, v)]
  | (k', v') :: rest => if k' = k then (k, v) :: rest else (k', v') :: insertAssoc k v rest

/-- The single-key branch of `load_mappings`'s loop: a record without a
non-empty sequence contributes `button_mappings[keyType] = action` when its
`keyType` is truthy, and is skipped otherwise. -/
def loadSingleStep (tabs : List (String × String) × List SeqMapping)
    (btn : RawButton) (action : String) :
    List (String × String) × List SeqMapping :=
  match btn.keyType with
  | some k => if k ≠ "" then (insertAssoc k action tabs.1, tabs.2) else tabs
  | none => tabs

/-- Stable insertion of a sequence mapping in front of the first strictly
shorter one; equal lengths keep their original relative order. -/
def insertByLenDesc (m : SeqMapping) : List SeqMapping → List SeqMapping
  | [] => [m]
  | y :: ys =>
    if y.sequence.length < m.sequence.length then m :: y :: ys
    else y :: insertByLenDesc m ys

/-- Models `sequence_mappings.sort(key=lambda x: len(x['sequence']),
reverse=True)`: a stable sort, descending by sequence length (Python's sort
is stable, and stability is preserved under `reverse=True`). -/
def sortByLenDesc (l : List SeqMapping) : List SeqMapping :=
  l.foldl (fun acc m => insertByLenDesc m acc) []

/-- Models `load_mappings`: its input is the result of the
`load_buttons()` call (`Except.error` models any raised exception, in which
case both tables are left empty by the handler).  A record with a falsy
`action` (absent or empty) is skipped; a record with a non-empty `sequence`
list goes to the sequence table; otherwise its `keyType` feeds the single-key
dict; finally the sequence table is sorted by length descending. -/
def load_mappings (fetched : Except Unit (List RawButton)) :
    List (String × String) × List SeqMapping :=
  match fetched with
  | .error _ => ([], [])
  | .ok buttons =>
    let tabs := buttons.foldl
      (fun (tabs : List (String × String) × List SeqMapping) btn =>
        match btn.action with
        | none => tabs
        | some action =>
          if action = "" then tabs
          else
            match btn.sequence with
            | some seq =>
              if seq ≠ [] then
                (tabs.1, tabs.2 ++ [{ sequence := seq, action := action,
                                      name := btn.name.getD "" }])
              else loadSingleStep tabs btn action
            | none => loadSingleStep tabs btn action)
      ([], [])
    (tabs.1, sortByLenDesc tabs.2)

/-- The whole mutable global state of the listener module.  `live_timers`
records identifiers of `threading.Timer`s that were started and have neither
been cancelled nor fired; `executed` is the audit trace of actions whose
`execute_shortcut` call succeeded; `thread_count` counts spawned listener
threads (event subscriptions). -/
structure EngineState where
  button_mappings : List (String × String)
  sequence_mappings : List SeqMapping
  key_history : List (String × ℤ)
  pending_single_key : Option (String × String × ℤ)
  pending_timer : Option ℕ
  live_timers : List ℕ
  next_timer_id : ℕ
  is_listening : Bool
  thread_count : ℕ
  executed : List String
deriving DecidableEq

/-- The fresh state of the module at import time. -/
def initState : EngineState :=
  { button_mappings := [], sequence_mappings := [], key_history := [],
    pending_single_key := none, pending_timer := none, live_timers := [],
    next_timer_id := 0, is_listening := false, thread_count := 0, executed := [] }

/-- The positional comparison loop inside `check_sequence_match`: the
candidate fits in the window and its tokens equal the window's trailing slice
of the candidate's length. -/
def seqMatchesAt (m : SeqMapping) (recent : List (String × ℤ)) : Bool :=
  decide (m.sequence.length ≤ recent.length ∧
    (recent.drop (recent.length - m.sequence.length)).map Prod.fst = m.sequence)

/-- Models the Python slice `history[-20:]`: the most recent (at most) 20
entries. -/
def recentOf (history : List (String × ℤ)) : List (String × ℤ) :=
  history.drop (history.length - 20)

/-- Models `check_sequence_match`: restrict to the last 20 entries
(`history[-20:]`), scan the maintained sequence list in order, return the
first positional match together with the window minus the matched suffix, or
`none` with the restricted window. -/
def check_sequence_match (seqs : List SeqMapping) (history : List (String × ℤ)) :
    Option SeqMapping × List (String × ℤ) :=
  let recent := recentOf history
  match seqs.find? (fun m => seqMatchesAt m recent) with
  | some m => (some m, recent.take (recent.length - m.sequence.length))
  | none => (none, recent)

/-- Models `cancel_pending_single_key`: cancel the live timer, if any, then
clear the pending record. -/
def cancel_pending_single_key (s : EngineState) : EngineState :=
  let s :=
    match s.pending_timer with
    | some id => { s with live_timers := s.live_timers.erase id, pending_timer := none }
    | none => s
  { s with pending_single_key := none }

/-- Models `execute_pending_single_key` (the timer callback body): when a
pending record exists, clear it and its timer handle, then run the action;
an execution failure is logged and swallowed. -/
def execute_pending_single_key (s : EngineState) : EngineState :=
  match s.pending_single_key with
  | some (_, action, _) =>
    let s := { s with pending_single_key := none, pending_timer := none }
    match execute_shortcut action with
    | .ok _ => { s with executed := s.executed ++ [action] }
    | .error _ => s
  | none => s

/-- Models the f-string `f"button_{button_number}"`. -/
def buttonKey (button_number : ℕ) : String :=
  "button_" ++ Nat.repr button_number

/-- The pruning loop in `handle_mouse_button`: pop entries from the front
while the oldest entry is older than `now - SEQUENCE_TIMEOUT`. -/
def prune (now : ℤ) : List (String × ℤ) → List (String × ℤ)
  | [] => []
  | (k, ts) :: rest =>
    if ts < now - SEQUENCE_TIMEOUT then prune now rest else (k, ts) :: rest

/-- Models `handle_mouse_button`: append the event, prune, try the sequence
matcher (a match cancels any pending single key, then runs the action, and
clears the whole history only when the action ran without raising), otherwise
fall back to the single-key table and schedule a deferred execution after
cancelling the previous one.  Returns the updated state and the function's
boolean result. -/
def handle_mouse_button (button_number : ℕ) (now : ℤ) (s : EngineState) :
    EngineState × Bool :=
  let key_type := buttonKey button_number
  let hist := prune now (s.key_history ++ [(key_type, now)])
  let s := { s with key_history := hist }
  match check_sequence_match s.sequence_mappings hist with
  | (some m, _) =>
    let s := cancel_pending_single_key s
    match execute_shortcut m.action with
    | .ok _ => ({ s with executed := s.executed ++ [m.action], key_history := [] }, true)
    | .error _ => (s, false)
  | (none, _) =>
    match lookupStr key_type s.button_mappings with
    | some action =>
      let s := cancel_pending_single_key s
      let id := s.next_timer_id
      ({ s with pending_single_key := some (key_type, action, now),
                pending_timer := some id,
                live_timers := s.live_timers ++ [id],
                next_timer_id := id + 1 }, true)
    | none => (s, false)

/-- Models `start_listener`: a no-op failure when already listening;
otherwise load the mapping tables, spawn the listener thread and flip the
flag. -/
def start_listener (fetched : Except Unit (List RawButton)) (s : EngineState) :
    EngineState × Bool :=
  if s.is_listening then (s, false)
  else
    let tabs := load_mappings fetched
    ({ s with button_mappings := tabs.1, sequence_mappings := tabs.2,
              is_listening := true, thread_count := s.thread_count + 1 }, true)

/-- Models `stop_listener`: a no-op failure when not listening; otherwise
cancel any pending single key, clear the history and flip the flag. -/
def stop_listener (s : EngineState) : EngineState × Bool :=
  if s.is_listening then
    let s := cancel_pending_single_key s
    ({ s with key_history := [], is_listening := false }, true)
  else (s, false)

/-- External stimuli of the module.  `button n t` is a release of mouse
button `n` delivered at time `t`; `timerFires id` is the expiry of a started
timer (it only has an effect while `id` is live, i.e. neither cancelled nor
already fired); the remaining constructors are the lifecycle entry points,
with the configuration-store fetch result passed in. -/
inductive MouseEvent where
  | button (n : ℕ) (t : ℤ)
  | timerFires (id : ℕ)
  | startReq (fetched : Except Unit (List RawButton))
  | stopReq
  | reloadReq (fetched : Except Unit (List RawButton))

/-- One transition of the module state under a stimulus. -/
def step (s : EngineState) : MouseEvent → EngineState
  | .button n t => (handle_mouse_button n t s).1
  | .timerFires id =>
    if s.live_timers.contains id then
      execute_pending_single_key { s with live_timers := s.live_timers.erase id }
    else s
  | .startReq f => (start_listener f s).1
  | .stopReq => (stop_listener s).1
  | .reloadReq f =>
    let tabs := load_mappings f
    { s with button_mappings := tabs.1, sequence_mappings := tabs.2 }

/-- Run a whole stimulus trace. -/
def run (s : EngineState) (events : List MouseEvent) : EngineState :=
  events.foldl step s

/-- A state whose mapping tables came from the given fetch result and whose
dynamic parts are fresh. -/
def loadedState (fetched : Except Unit (List RawButton)) : EngineState :=
  { initState with button_mappings := (load_mappings fetched).1,
                   sequence_mappings := (load_mappings fetched).2 }

/-- The token a part contributes when its classification succeeds (used to
state order preservation of the parser). -/
def okToken (p : String) : Option KeyToken :=
  match classifyPart p with
  | .ok (some k) => some k
  | _ => none

/-- Length-descending order on sequence mappings (the order `load_mappings`
maintains). -/
def lenDesc (a b : SeqMapping) : Prop :=
  b.sequence.length ≤ a.sequence.length

instance : DecidableRel lenDesc :=
  fun a b => inferInstanceAs (Decidable (b.sequence.length ≤ a.sequence.length))

/-- Time-sortedness of the history window (timestamps never decrease from
front to back), which holds along any run whose button events arrive in
chronological order. -/
def histSorted (h : List (String × ℤ)) : Prop :=
  h.Pairwise (fun a b => a.2 ≤ b.2)

/-- The timer bookkeeping invariant: the live (started, not cancelled, not
fired) timers are exactly the one referenced by `pending_timer`, and a timer
handle is held exactly while a pending record exists. -/
def timerInv (s : EngineState) : Prop :=
  s.live_timers = s.pending_timer.toList ∧
  s.pending_single_key.isSome = s.pending_timer.isSome

/-- Claim C1's configuration: sequence mappings `[button_0] -> "a"` and
`[button_0, button_1] -> "b"` (both actions are valid shortcut strings). -/
def C1fetch : Except Unit (List RawButton) :=
  .ok [{ keyType := none, sequence := some ["button_0"], action := some "a", name := none },
       { keyType := none, sequence := some ["button_0", "button_1"], action := some "b",
         name := none }]

/-- Claim C2's configuration: single-key mapping `button_2 -> "c"` and
sequence mapping `[button_2, button_3] -> "d"`. -/
def C2fetch : Except Unit (List RawButton) :=
  .ok [{ keyType := some "button_2", sequence := none, action := some "c", name := none },
       { keyType := none, sequence := some ["button_2", "button_3"], action := some "d",
         name := none }]

/-- The state after claim C2's two-event trace: exactly one execution (of
`"d"`), nothing pending, no live timer, empty window. -/
def C2final : EngineState :=
  { button_mappings := [("button_2", "c")],
    sequence_mappings := [{ sequence := ["button_2", "button_3"], action := "d", name := "" }],
    key_history := [], pending_single_key := none, pending_timer := none,
    live_timers := [], next_timer_id := 1, is_listening := false, thread_count := 0,
    executed := ["d"] }

/-- The state after claim C2's first event (`button_2` at time `t`): the
event is recorded, no sequence matches yet, and a deferred single key with
its timer (identifier 0) is outstanding. -/
def C2mid (t : ℤ) : EngineState :=
  { button_mappings := [("button_2", "c")],
    sequence_mappings := [{ sequence := ["button_2", "button_3"], action := "d", name := "" }],
    key_history := [("button_2", t)],
    pending_single_key := some ("button_2", "c", t),
    pending_timer := some 0, live_timers := [0], next_timer_id := 1,
    is_listening := false, thread_count := 0, executed := [] }

/-- A one-sequence configuration whose action is a valid shortcut (used to
witness claim C3's cancellation-on-match conjunct). -/
def C3fetch : Except Unit (List RawButton) :=
  .ok [{ keyType := some "button_0", sequence := none, action := some "a", name := none },
       { keyType := none, sequence := some ["button_0", "button_1"], action := some "b",
         name := none }]

/-- Claim C4's counterexample configuration: the sequence `[button_0]` is
mapped to the action string `"zz"`, which `_parse_shortcut` rejects, so the
sequence match fires but its execution raises. -/
def C4fetch : Except Unit (List RawButton) :=
  .ok [{ keyType := none, sequence := some ["button_0"], action := some "zz", name := none }]

/-- A well-formed variant of claim C4's configuration (action parses). -/
def C4fetchOk : Except Unit (List RawButton) :=
  .ok [{ keyType := none, sequence := some ["button_0"], action := some "a", name := none }]

/-- Claim C5's counterexample trace: 21 button releases inside one timeout
window. -/
def C5events : List MouseEvent :=
  (List.range 21).map (fun _ => .button 0 0)


/-! ## Helper lemmas -/

@[simp] theorem exceptIsOk_error {ε α : Type} (e : ε) :
    (Except.error e : Except ε α).isOk = false := rfl

@[simp] theorem exceptIsOk_ok {ε α : Type} (a : α) :
    (Except.ok a : Except ε α).isOk = true := rfl

theorem foldl_push_map {α β : Type} (f : α → β) :
    ∀ (l : List α) (init : List β),
      l.foldl (fun acc k => acc ++ [f k]) init = init ++ l.map f := by
  intro l
  induction l with
  | nil => intro init; simp
  | cons x xs ih => intro init; simp [ih]

theorem pressReleaseTrace_eq (ks : List KeyToken) :
    pressReleaseTrace ks = ks.map KeyAction.press ++ ks.reverse.map KeyAction.release := by
  show ks.reverse.foldl (fun acc k => acc ++ [KeyAction.release k])
      (ks.foldl (fun acc k => acc ++ [KeyAction.press k]) []) =
    ks.map KeyAction.press ++ ks.reverse.map KeyAction.release
  rw [foldl_push_map, foldl_push_map, List.nil_append]

theorem parseParts_ok_eq :
    ∀ (parts : List String) (acc res : List KeyToken),
      parseParts parts acc = .ok res → res = acc ++ parts.filterMap okToken := by
  intro parts
  induction parts with
  | nil => intro acc res h; simp [parseParts] at h; simp [h]
  | cons p ps ih =>
    intro acc res h
    simp only [parseParts] at h
    rcases hc : classifyPart p with e | k
    · rw [hc] at h; exact absurd h (by simp)
    · rcases k with _ | k
      · rw [hc] at h
        have := ih acc res h
        simp [this, List.filterMap, okToken, hc]
      · rw [hc] at h
        have := ih (acc ++ [k]) res h
        simp [this, List.filterMap, okToken, hc]

theorem parseParts_error_of_mem :
    ∀ (parts : List String) (acc : List KeyToken) (p : String),
      p ∈ parts → (classifyPart p).isOk = false →
      (parseParts parts acc).isOk = false := by
  intro parts
  induction parts with
  | nil => intro acc p h; simp at h
  | cons q qs ih =>
    intro acc p hmem hbad
    rcases List.mem_cons.mp hmem with h | h
    · subst h
      rcases hc : classifyPart p with e | k
      · simp [parseParts, hc]
      · rw [hc] at hbad; simp at hbad
    · rcases hc : classifyPart q with e | k
      · simp [parseParts, hc]
      · rcases k with _ | k
        · simpa [parseParts, hc] using ih acc p h hbad
        · simpa [parseParts, hc] using ih (acc ++ [k]) p h hbad

/-! ## Claim theorems -/

/-- **C6**: every shortcut string containing an unknown multi-character
token (e.g. `"foo"`), an out-of-range function key (e.g. `"f21"`), or
producing an empty token list (e.g. the empty string) is rejected by
`_parse_shortcut`; more generally any part that fails classification aborts
the parse; and every successful parse yields a non-empty token list that is
the in-order sequence of tokens contributed by the parts. -/
theorem C6_parse_validation :
    (_parse_shortcut "foo").isOk = false ∧
    (_parse_shortcut "f21").isOk = false ∧
    (_parse_shortcut "").isOk = false ∧
    (∀ s p, p ∈ shortcutParts s → (classifyPart p).isOk = false →
      (_parse_shortcut s).isOk = false) ∧
    (∀ s ks, _parse_shortcut s = .ok ks →
      ks ≠ [] ∧ ks = (shortcutParts s).filterMap okToken) := by
  refine ⟨by decide, by decide, by decide, ?_, ?_⟩
  · intro s p hmem hbad
    have herr := parseParts_error_of_mem (shortcutParts s) [] p hmem hbad
    rcases h : parseParts (shortcutParts s) [] with e | keys
    · simp [_parse_shortcut, h]
    · rw [h] at herr; simp at herr
  · intro s ks h
    rcases hp : parseParts (shortcutParts s) [] with e | keys
    · simp [_parse_shortcut, hp] at h
    · simp only [_parse_shortcut, hp] at h
      by_cases hk : keys = []
      · simp [hk] at h
      · simp [hk] at h
        subst h
        exact ⟨hk, by simpa using parseParts_ok_eq (shortcutParts s) [] keys hp⟩

/-- Witness for C6: the general conjuncts applied to concrete inputs — the
part `"zz"` of `"ctrl+zz"` fails classification so the parse fails, and the
successful parse of `"ctrl+c"` is non-empty. -/
theorem C6_parse_validation_witness :
    (_parse_shortcut "ctrl+zz").isOk = false ∧
    ([KeyToken.special "ctrl", KeyToken.char 'c'] ≠ []) :=
  ⟨C6_parse_validation.2.2.2.1 "ctrl+zz" "zz" (by decide) (by decide),
   (C6_parse_validation.2.2.2.2 "ctrl+c" _ (by decide)).1⟩

/-- **C7**: for every shortcut whose parse yields `[k1, ..., kn]`, the
executor emits key presses in exactly that order followed by key releases in
exactly the reversed order. -/
theorem C7_press_release_ordering :
    ∀ s ks, _parse_shortcut s = .ok ks →
      execute_shortcut s =
        .ok (ks.map KeyAction.press ++ ks.reverse.map KeyAction.release) := by
  intro s ks h
  simp [execute_shortcut, h, pressReleaseTrace_eq]

/-- Witness for C7: the spec's own example `ctrl+shift+c` presses
`ctrl, shift, c` and releases `c, shift, ctrl`. -/
theorem C7_press_release_ordering_witness :
    execute_shortcut "ctrl+shift+c" =
      .ok ([KeyToken.special "ctrl", .special "shift", .char 'c'].map KeyAction.press ++
           [KeyToken.special "ctrl", .special "shift", .char 'c'].reverse.map
             KeyAction.release) :=
  C7_press_release_ordering "ctrl+shift+c" _ (by decide)

/-- **C8**: the fast and normal execution variants agree — they succeed on
exactly the same shortcut strings, and on success emit the identical
press/release trace; on failure the fast variant returns the failure flag
`false` (swallowing the error) while the normal variant raises a wrapped
error. -/
theorem C8_fast_normal_equivalence :
    ∀ s : String,
      ((execute_shortcut_fast s).2 = true ↔ (execute_shortcut s).isOk = true) ∧
      (∀ tr, execute_shortcut s = .ok tr → execute_shortcut_fast s = (tr, true)) ∧
      ((execute_shortcut s).isOk = false → execute_shortcut_fast s = ([], false)) ∧
      (∀ e, _parse_shortcut s = .error e →
        execute_shortcut s = .error ("执行快捷键失败: " ++ e)) := by
  intro s
  rcases h : _parse_shortcut s with e | ks
  · refine ⟨by simp [execute_shortcut, execute_shortcut_fast, h], ?_, ?_, ?_⟩
    · intro tr htr; simp [execute_shortcut, h] at htr
    · intro _; simp [execute_shortcut_fast, h]
    · intro e' he'
      injection he' with he''
      subst he''
      simp [execute_shortcut, h]
  · refine ⟨by simp [execute_shortcut, execute_shortcut_fast, h], ?_, ?_, ?_⟩
    · intro tr htr
      simp only [execute_shortcut, h] at htr
      injection htr with htr'
      subst htr'
      simp [execute_shortcut_fast, h]
    · intro hb; simp [execute_shortcut, h] at hb
    · intro e' he'; exact absurd he' (by simp)

/-- Witness for C8: at `"ctrl+c"` both variants emit the same trace and
succeed; at `"foo"` the fast variant returns `([], false)`. -/
theorem C8_fast_normal_equivalence_witness :
    execute_shortcut_fast "ctrl+c" =
      (pressReleaseTrace [KeyToken.special "ctrl", KeyToken.char 'c'], true) ∧
    execute_shortcut_fast "foo" = ([], false) :=
  ⟨(C8_fast_normal_equivalence "ctrl+c").2.1 _ (by decide),
   (C8_fast_normal_equivalence "foo").2.2.1 (by decide)⟩

/-- **C10**: when the fetch from the configuration store raises, the
`except` handler of `load_mappings` leaves both tables empty, whatever was
loaded before: the reload transition installs empty tables on every prior
state. -/
theorem C10_load_failure_resets :
    load_mappings (Except.error ()) = ([], []) ∧
    ∀ s : EngineState,
      (step s (.reloadReq (Except.error ()))).button_mappings = [] ∧
      (step s (.reloadReq (Except.error ()))).sequence_mappings = [] := by
  exact ⟨rfl, fun s => ⟨by simp [step, load_mappings], by simp [step, load_mappings]⟩⟩

/-- **C9**: `start()` on a running listener returns `success:false` and
changes nothing (in particular no second subscription thread is spawned);
starting from stopped succeeds, spawns one thread, and a second `start()` is
then a no-op failure; `stop()` on a stopped listener returns `success:false`
unchanged; `stop()` from running cancels the pending single key (record and
timer handle), clears the history window and transitions to stopped. -/
theorem C9_lifecycle_idempotence :
    ∀ (s : EngineState) (f f' : Except Unit (List RawButton)),
      (s.is_listening = true → start_listener f s = (s, false)) ∧
      (s.is_listening = false →
        (start_listener f s).2 = true ∧
        (start_listener f s).1.is_listening = true ∧
        (start_listener f s).1.thread_count = s.thread_count + 1 ∧
        start_listener f' (start_listener f s).1 = ((start_listener f s).1, false)) ∧
      (s.is_listening = false → stop_listener s = (s, false)) ∧
      (s.is_listening = true →
        (stop_listener s).2 = true ∧
        (stop_listener s).1.pending_single_key = none ∧
        (stop_listener s).1.pending_timer = none ∧
        (stop_listener s).1.key_history = [] ∧
        (stop_listener s).1.is_listening = false) := by
  intro s f f'
  refine ⟨?_, ?_, ?_, ?_⟩ <;> intro h
  · simp [start_listener, h]
  · simp [start_listener, h]
  · simp [stop_listener, h]
  · rcases hpt : s.pending_timer with _ | id <;>
      simp [stop_listener, h, cancel_pending_single_key, hpt]

/-- Witness for C9: starting twice from the fresh state fails the second
time without touching the state, and stopping the fresh (stopped) state
fails. -/
theorem C9_lifecycle_idempotence_witness :
    start_listener (Except.error ())
        ((start_listener (Except.error ()) initState).1) =
      ((start_listener (Except.error ()) initState).1, false) ∧
    stop_listener initState = (initState, false) :=
  ⟨((C9_lifecycle_idempotence initState (Except.error ()) (Except.error ())).2.1
      rfl).2.2.2,
   (C9_lifecycle_idempotence initState (Except.error ()) (Except.error ())).2.2.1 rfl⟩

/-- Counterexample to C1 as stated: with the sequence mappings
`[button_0] -> "a"` and `[button_0, button_1] -> "b"`, feeding `button_0` at
0 ms and `button_1` at 250 ms (within `SEQUENCE_TIMEOUT`) executes `"a"`
— the length-1 sequence matches already when `button_0` arrives — not
`"b"`, and the history window is not empty afterwards (it holds the
`button_1` entry). -/
theorem C1_counterexample :
    (run (loadedState C1fetch) [.button 0 0, .button 1 250]).executed = ["a"] ∧
    (run (loadedState C1fetch) [.button 0 0, .button 1 250]).executed ≠ ["b"] ∧
    (run (loadedState C1fetch) [.button 0 0, .button 1 250]).key_history ≠ [] := by
  decide

/-- Counterexample to C4 as stated: with the sequence `[button_0]` mapped to
the invalid action string `"zz"`, handling a `button_0` release finds a
sequence match, but `execute_shortcut` raises, the `key_history.clear()`
line is skipped, and the entry remains in the window after the match. -/
theorem C4_counterexample :
    (check_sequence_match (loadedState C4fetch).sequence_mappings
        (prune 0 ((loadedState C4fetch).key_history ++ [(buttonKey 0, 0)]))).1 =
      some { sequence := ["button_0"], action := "zz", name := "" } ∧
    (handle_mouse_button 0 0 (loadedState C4fetch)).1.key_history =
      [("button_0", 0)] := by
  decide

/-- Counterexample to C5 as stated: 21 button releases at the same
timestamp leave 21 entries in the stored history window — the 20-entry cap
is applied only to the matcher's read view (`history[-20:]`), never to the
stored list. -/
theorem C5_counterexample :
    (run initState C5events).key_history.length = 21 ∧
    ¬ (run initState C5events).key_history.length ≤ 20 := by
  decide

theorem cancel_key_history (s : EngineState) :
    (cancel_pending_single_key s).key_history = s.key_history := by
  rcases h : s.pending_timer with _ | id <;> simp [cancel_pending_single_key, h]

theorem cancel_pending_none (s : EngineState) :
    (cancel_pending_single_key s).pending_single_key = none := by
  rcases h : s.pending_timer with _ | id <;> simp [cancel_pending_single_key, h]

theorem cancel_timer_none (s : EngineState) :
    (cancel_pending_single_key s).pending_timer = none := by
  rcases h : s.pending_timer with _ | id <;> simp [cancel_pending_single_key, h]

theorem cancel_executed (s : EngineState) :
    (cancel_pending_single_key s).executed = s.executed := by
  rcases h : s.pending_timer with _ | id <;> simp [cancel_pending_single_key, h]

/-- **C4** (amended): whenever the sequence matcher finds a match for the
newly appended-and-pruned window and the matched action executes without
raising, the whole stored window is cleared; when the action's execution
raises, the window keeps its full appended-and-pruned contents.  In neither
case is merely the matched suffix removed — the `remaining` component the
matcher returns is discarded by `handle_mouse_button`. -/
theorem C4_full_clear_on_match :
    ∀ (s : EngineState) (n : ℕ) (t : ℤ) (m : SeqMapping) (rest : List (String × ℤ)),
      check_sequence_match s.sequence_mappings
          (prune t (s.key_history ++ [(buttonKey n, t)])) = (some m, rest) →
      ((execute_shortcut m.action).isOk = true →
        (handle_mouse_button n t s).1.key_history = []) ∧
      ((execute_shortcut m.action).isOk = false →
        (handle_mouse_button n t s).1.key_history =
          prune t (s.key_history ++ [(buttonKey n, t)])) := by
  intro s n t m rest hmatch
  constructor <;> intro hexec <;>
    rcases hex : execute_shortcut m.action with e | tr
  · rw [hex] at hexec; simp at hexec
  · simp [handle_mouse_button, hmatch, hex]
  · simp [handle_mouse_button, hmatch, hex, cancel_key_history]
  · rw [hex] at hexec; simp at hexec

/-- Witness for C4: with `[button_0] -> "a"` (a valid action), handling
`button_0` matches and clears the whole window. -/
theorem C4_full_clear_on_match_witness :
    (handle_mouse_button 0 0 (loadedState C4fetchOk)).1.key_history = [] :=
  (C4_full_clear_on_match (loadedState C4fetchOk) 0 0
      { sequence := ["button_0"], action := "a", name := "" } []
      (by decide)).1 (by decide)

theorem prune_sublist (now : ℤ) :
    ∀ l : List (String × ℤ), (prune now l).Sublist l := by
  intro l
  induction l with
  | nil => simp [prune]
  | cons e rest ih =>
    rcases e with ⟨k, ts⟩
    by_cases h : ts < now - SEQUENCE_TIMEOUT
    · simpa [prune, h] using ih.cons _
    · simp [prune, h]

theorem histSorted_prune (now : ℤ) (l : List (String × ℤ)) (h : histSorted l) :
    histSorted (prune now l) := by
  exact List.Pairwise.sublist (prune_sublist now l) h

theorem prune_mem_ge (now : ℤ) :
    ∀ l : List (String × ℤ), histSorted l →
      ∀ e ∈ prune now l, now - SEQUENCE_TIMEOUT ≤ e.2 := by
  intro l
  induction l with
  | nil => intro _ e he; simp [prune] at he
  | cons x rest ih =>
    intro hs e he
    rcases x with ⟨k, ts⟩
    rcases List.pairwise_cons.mp hs with ⟨hhead, htail⟩
    by_cases h : ts < now - SEQUENCE_TIMEOUT
    · rw [prune, if_pos h] at he
      exact ih htail e he
    · rw [prune, if_neg h] at he
      rcases List.mem_cons.mp he with h' | h'
      · subst h'; omega
      · have := hhead e h'
        simp at this
        omega

theorem histSorted_append (l : List (String × ℤ)) (k : String) (t : ℤ)
    (hs : histSorted l) (hb : ∀ e ∈ l, e.2 ≤ t) :
    histSorted (l ++ [(k, t)]) := by
  rw [histSorted, List.pairwise_append]
  refine ⟨hs, List.pairwise_singleton _ _, ?_⟩
  intro a ha b hb'
  simp only [List.mem_singleton] at hb'
  rw [hb']
  exact hb a ha

theorem handle_key_history_cases (n : ℕ) (t : ℤ) (s : EngineState) :
    (handle_mouse_button n t s).1.key_history = [] ∨
    (handle_mouse_button n t s).1.key_history =
      prune t (s.key_history ++ [(buttonKey n, t)]) := by
  simp only [handle_mouse_button]
  split
  · split
    · left; simp
    · right; simp [cancel_key_history]
  · split
    · right; simp [cancel_key_history]
    · right; simp

theorem recentOf_idem (h : List (String × ℤ)) : recentOf (recentOf h) = recentOf h := by
  unfold recentOf
  rw [List.length_drop]
  have he : h.length - (h.length - 20) - 20 = 0 := by omega
  rw [he, List.drop_zero]

theorem recentOf_length_le (h : List (String × ℤ)) : (recentOf h).length ≤ 20 := by
  rw [recentOf, List.length_drop]
  omega

/-- **C5** (amended): after every append at time `now` — assuming the stored
window is time-sorted and its entries predate `now`, which holds along any
run whose events are delivered chronologically — every entry of the stored
window is at least `now - SEQUENCE_TIMEOUT` (so an entry separated from
`now` by more than the timeout has been pruned and can never take part in a
match), and the window stays time-sorted; the 20-entry cap, however, bounds
only the matcher's read view `history[-20:]` (the matcher's result depends
only on that view, which never exceeds 20 entries), not the stored list. -/
theorem C5_window_bounds :
    (∀ (s : EngineState) (n : ℕ) (t : ℤ),
      histSorted s.key_history → (∀ e ∈ s.key_history, e.2 ≤ t) →
      (∀ e ∈ (handle_mouse_button n t s).1.key_history,
        t - SEQUENCE_TIMEOUT ≤ e.2 ∧ e.2 ≤ t) ∧
      histSorted (handle_mouse_button n t s).1.key_history) ∧
    (∀ seqs h, check_sequence_match seqs h = check_sequence_match seqs (recentOf h) ∧
      (recentOf h).length ≤ 20) := by
  constructor
  · intro s n t hs hb
    have hs' : histSorted (s.key_history ++ [(buttonKey n, t)]) :=
      histSorted_append _ _ _ hs hb
    have hb' : ∀ e ∈ s.key_history ++ [(buttonKey n, t)], e.2 ≤ t := by
      intro e he
      rcases List.mem_append.mp he with h' | h'
      · exact hb e h'
      · simp at h'; rw [h']
    have hmemP : ∀ e ∈ prune t (s.key_history ++ [(buttonKey n, t)]),
        t - SEQUENCE_TIMEOUT ≤ e.2 ∧ e.2 ≤ t := by
      intro e he
      refine ⟨prune_mem_ge t _ hs' e he, ?_⟩
      exact hb' e ((prune_sublist t _).mem he)
    have hsP : histSorted (prune t (s.key_history ++ [(buttonKey n, t)])) :=
      histSorted_prune t _ hs'
    rcases handle_key_history_cases n t s with h | h
    · rw [h]
      exact ⟨by simp, by simp [histSorted]⟩
    · rw [h]
      exact ⟨hmemP, hsP⟩
  · intro seqs h
    exact ⟨by simp [check_sequence_match, recentOf_idem], recentOf_length_le h⟩

/-- Witness for C5: the per-append bound applied at the fresh state —
handling `button_0` at time 0 leaves a window inside `[-500, 0]` and
sorted. -/
theorem C5_window_bounds_witness :
    (∀ e ∈ (handle_mouse_button 0 0 initState).1.key_history,
      (0 : ℤ) - SEQUENCE_TIMEOUT ≤ e.2 ∧ e.2 ≤ 0) ∧
    histSorted (handle_mouse_button 0 0 initState).1.key_history :=
  C5_window_bounds.1 initState 0 0 (by simp [histSorted, initState])
    (by simp [initState])

theorem timerInv_cancel (s : EngineState) (h : timerInv s) :
    (cancel_pending_single_key s).live_timers = [] ∧
    (cancel_pending_single_key s).pending_timer = none ∧
    (cancel_pending_single_key s).pending_single_key = none := by
  rcases h with ⟨hl, _⟩
  rcases hpt : s.pending_timer with _ | id
  · rw [hpt] at hl
    simp [cancel_pending_single_key, hpt]
    simpa using hl
  · rw [hpt] at hl
    simp [cancel_pending_single_key, hpt, hl]

theorem timerInv_key_history_set (s : EngineState) (l : List (String × ℤ))
    (h : timerInv s) : timerInv { s with key_history := l } := by
  rcases h with ⟨h1, h2⟩
  exact ⟨by simpa using h1, by simpa using h2⟩

theorem timerInv_handle (n : ℕ) (t : ℤ) (s : EngineState) (h : timerInv s) :
    timerInv (handle_mouse_button n t s).1 := by
  have h' : timerInv { s with key_history := prune t (s.key_history ++ [(buttonKey n, t)]) } :=
    timerInv_key_history_set s _ h
  have hc := timerInv_cancel _ h'
  simp only [handle_mouse_button]
  split
  · split
    · exact ⟨by simp [hc.1, hc.2.1], by simp [hc.2.1, hc.2.2]⟩
    · exact ⟨by simp [hc.1, hc.2.1], by simp [hc.2.1, hc.2.2]⟩
  · split
    · exact ⟨by simp [hc.1], by simp⟩
    · exact h'

theorem timerInv_fire (id : ℕ) (s : EngineState) (h : timerInv s) :
    timerInv (step s (.timerFires id)) := by
  simp only [step]
  by_cases hin : s.live_timers.contains id
  · rw [if_pos hin]
    rcases h with ⟨hl, hp⟩
    rcases hpt : s.pending_timer with _ | tid
    · rw [hpt] at hl
      simp only [Option.toList] at hl
      rw [hl] at hin
      simp at hin
    · rw [hpt] at hl hp
      simp only [Option.toList] at hl
      have hid : id = tid := by
        rw [hl] at hin
        simpa using hin
      subst hid
      rcases hps : s.pending_single_key with _ | trip
      · rw [hps] at hp; simp at hp
      · rcases trip with ⟨k, a, ts⟩
        rcases hex : execute_shortcut a with e | tr <;>
          simp [execute_pending_single_key, hps, hex, timerInv, hl]
  · rw [if_neg hin]
    exact h

theorem timerInv_step (s : EngineState) (e : MouseEvent) (h : timerInv s) :
    timerInv (step s e) := by
  rcases e with ⟨n, t⟩ | id | f | _ | f
  · exact timerInv_handle n t s h
  · exact timerInv_fire id s h
  · simp only [step, start_listener]
    by_cases hl : s.is_listening
    · rw [if_pos hl]; exact h
    · rw [if_neg hl]
      rcases h with ⟨h1, h2⟩
      exact ⟨by simpa using h1, by simpa using h2⟩
  · simp only [step, stop_listener]
    by_cases hl : s.is_listening
    · rw [if_pos hl]
      have hc := timerInv_cancel s h
      exact ⟨by simp [hc.1, hc.2.1], by simp [hc.2.1, hc.2.2]⟩
    · rw [if_neg hl]; exact h
  · rcases h with ⟨h1, h2⟩
    exact ⟨by simpa using h1, by simpa using h2⟩

theorem timerInv_run (s : EngineState) (events : List MouseEvent) (h : timerInv s) :
    timerInv (run s events) := by
  induction events generalizing s with
  | nil => exact h
  | cons e es ih => exact ih (step s e) (timerInv_step s e h)

/-- **C3**: along every stimulus trace from the fresh state there is at most
one live (started, uncancelled, unfired) timer — the one referenced by
`pending_timer` — and a timer handle is held exactly while a pending
single-key record exists; moreover every sequence match leaves the handler
with no pending record and no timer handle (the match branch cancels any
pending single key before executing). -/
theorem C3_at_most_one_pending :
    (∀ events : List MouseEvent,
      timerInv (run initState events) ∧
      (run initState events).live_timers.length ≤ 1) ∧
    (∀ (s : EngineState) (n : ℕ) (t : ℤ) (m : SeqMapping) (rest : List (String × ℤ)),
      check_sequence_match s.sequence_mappings
          (prune t (s.key_history ++ [(buttonKey n, t)])) = (some m, rest) →
      (handle_mouse_button n t s).1.pending_single_key = none ∧
      (handle_mouse_button n t s).1.pending_timer = none) := by
  constructor
  · intro events
    have hinv : timerInv (run initState events) :=
      timerInv_run initState events ⟨rfl, rfl⟩
    refine ⟨hinv, ?_⟩
    rw [hinv.1]
    rcases (run initState events).pending_timer <;> simp [Option.toList]
  · intro s n t m rest hmatch
    rcases hex : execute_shortcut m.action with e | tr <;>
      simp [handle_mouse_button, hmatch, hex, cancel_pending_none, cancel_timer_none]

/-- Witness for C3: in the C3 configuration, `button_0` leaves a pending
single key; the following `button_1` completes the sequence
`[button_0, button_1]`, and the match leaves neither a pending record nor a
timer handle. -/
theorem C3_at_most_one_pending_witness :
    (run (loadedState C3fetch) [.button 0 0]).pending_single_key.isSome = true ∧
    (handle_mouse_button 1 100 (run (loadedState C3fetch) [.button 0 0])).1.pending_single_key
      = none ∧
    (handle_mouse_button 1 100 (run (loadedState C3fetch) [.button 0 0])).1.pending_timer
      = none :=
  ⟨by decide,
   C3_at_most_one_pending.2 (run (loadedState C3fetch) [.button 0 0]) 1 100
     { sequence := ["button_0", "button_1"], action := "b", name := "" } []
     (by decide)⟩

theorem prune_cons_keep (now : ℤ) (k : String) (ts : ℤ) (rest : List (String × ℤ))
    (h : ¬ ts < now - SEQUENCE_TIMEOUT) :
    prune now ((k, ts) :: rest) = (k, ts) :: rest := by
  rw [prune, if_neg h]

theorem C2_step1 (t : ℤ) : step (loadedState C2fetch) (.button 2 t) = C2mid t := by
  have hp : prune t ((loadedState C2fetch).key_history ++ [(buttonKey 2, t)]) =
      [("button_2", t)] := by
    rw [show (loadedState C2fetch).key_history ++ [(buttonKey 2, t)] =
        [("button_2", t)] from rfl]
    exact prune_cons_keep t "button_2" t []
      (by simp only [SEQUENCE_TIMEOUT]; omega)
  simp only [step, handle_mouse_button, hp]
  rfl

theorem C2_step2 (t t' : ℤ) (h : ¬ t < t' - SEQUENCE_TIMEOUT) :
    step (C2mid t) (.button 3 t') = C2final := by
  have hp : prune t' ((C2mid t).key_history ++ [(buttonKey 3, t')]) =
      [("button_2", t), ("button_3", t')] := by
    rw [show (C2mid t).key_history ++ [(buttonKey 3, t')] =
        [("button_2", t), ("button_3", t')] from rfl]
    exact prune_cons_keep t' "button_2" t _ h
  simp only [step, handle_mouse_button, hp]
  rfl

/-- **C2**: with single-key mapping `button_2 -> "c"` and sequence mapping
`[button_2, button_3] -> "d"`, feeding `button_2` at `t` and `button_3` at
`t'` before `SINGLE_KEY_DELAY` elapses (so the deferred timer has not fired)
yields exactly one execution — of `"d"` — and never executes `"c"`: the
sequence match cancels the pending single key before firing, and afterwards
no pending record or live timer remains, so a late timer expiry is a no-op. -/
theorem C2_cancellation_on_compose :
    ∀ t t' : ℤ, t ≤ t' → t' < t + SINGLE_KEY_DELAY →
      run (loadedState C2fetch) [.button 2 t, .button 3 t'] = C2final ∧
      C2final.executed = ["d"] ∧
      C2final.pending_single_key = none ∧
      C2final.live_timers = [] ∧
      (∀ id, step C2final (.timerFires id) = C2final) := by
  intro t t' h1 h2
  have hr : run (loadedState C2fetch) [.button 2 t, .button 3 t'] = C2final := by
    show step (step (loadedState C2fetch) (.button 2 t)) (.button 3 t') = C2final
    rw [C2_step1 t]
    refine C2_step2 t t' ?_
    simp only [SEQUENCE_TIMEOUT]
    simp only [SINGLE_KEY_DELAY] at h2
    omega
  exact ⟨hr, rfl, rfl, rfl, fun id => rfl⟩

/-- Witness for C2: the two-event trace at times 0 and 250 ms (within the
300 ms delay) executes exactly `"d"`. -/
theorem C2_cancellation_on_compose_witness :
    run (loadedState C2fetch) [.button 2 0, .button 3 250] = C2final ∧
    C2final.executed = ["d"] ∧
    C2final.pending_single_key = none ∧
    C2final.live_timers = [] ∧
    (∀ id, step C2final (.timerFires id) = C2final) :=
  C2_cancellation_on_compose 0 250 (by decide) (by decide)

theorem mem_insertByLenDesc (m x : SeqMapping) :
    ∀ l : List SeqMapping, x ∈ insertByLenDesc m l → x = m ∨ x ∈ l := by
  intro l
  induction l with
  | nil => intro h; simpa [insertByLenDesc] using h
  | cons y ys ih =>
    intro h
    by_cases hc : y.sequence.length < m.sequence.length
    · rw [insertByLenDesc, if_pos hc] at h
      rcases List.mem_cons.mp h with h' | h'
      · exact Or.inl h'
      · exact Or.inr h'
    · rw [insertByLenDesc, if_neg hc] at h
      rcases List.mem_cons.mp h with h' | h'
      · exact Or.inr (List.mem_cons.mpr (Or.inl h'))
      · rcases ih h' with h'' | h''
        · exact Or.inl h''
        · exact Or.inr (List.mem_cons.mpr (Or.inr h''))

theorem pairwise_insertByLenDesc (m : SeqMapping) :
    ∀ l : List SeqMapping, List.Pairwise lenDesc l →
      List.Pairwise lenDesc (insertByLenDesc m l) := by
  intro l
  induction l with
  | nil => intro _; simp [insertByLenDesc, List.pairwise_singleton]
  | cons y ys ih =>
    intro hp
    rcases List.pairwise_cons.mp hp with ⟨hy, hys⟩
    by_cases hc : y.sequence.length < m.sequence.length
    · rw [insertByLenDesc, if_pos hc]
      refine List.pairwise_cons.mpr ⟨?_, hp⟩
      intro z hz
      rcases List.mem_cons.mp hz with h' | h'
      · subst h'; exact le_of_lt hc
      · exact le_trans (hy z h') (le_of_lt hc)
    · rw [insertByLenDesc, if_neg hc]
      refine List.pairwise_cons.mpr ⟨?_, ih hys⟩
      intro z hz
      rcases mem_insertByLenDesc m z ys hz with h' | h'
      · subst h'; exact le_of_not_lt hc
      · exact hy z h'

theorem pairwise_sortByLenDesc (l : List SeqMapping) :
    List.Pairwise lenDesc (sortByLenDesc l) := by
  have key : ∀ (l' : List SeqMapping) (acc : List SeqMapping),
      List.Pairwise lenDesc acc →
      List.Pairwise lenDesc (l'.foldl (fun acc m => insertByLenDesc m acc) acc) := by
    intro l'
    induction l' with
    | nil => intro acc h; exact h
    | cons m ms ih =>
      intro acc h
      exact ih (insertByLenDesc m acc) (pairwise_insertByLenDesc m acc h)
  exact key l [] List.Pairwise.nil

theorem load_mappings_pairwise (fetched : Except Unit (List RawButton)) :
    List.Pairwise lenDesc (load_mappings fetched).2 := by
  rcases fetched with e | buttons
  · simp [load_mappings]
  · simp only [load_mappings]
    exact pairwise_sortByLenDesc _

theorem check_match_first (seqs : List SeqMapping) (h : List (String × ℤ))
    (m : SeqMapping) (rest : List (String × ℤ))
    (hsorted : List.Pairwise lenDesc seqs)
    (hm : check_sequence_match seqs h = (some m, rest)) :
    seqMatchesAt m (recentOf h) = true ∧
    ∀ m' ∈ seqs, seqMatchesAt m' (recentOf h) = true →
      m'.sequence.length ≤ m.sequence.length := by
  have hf : seqs.find? (fun x => seqMatchesAt x (recentOf h)) = some m := by
    rcases hff : seqs.find? (fun x => seqMatchesAt x (recentOf h)) with _ | m''
    · simp only [check_sequence_match, hff, Prod.mk.injEq] at hm
      exact hm.1
    · simp only [check_sequence_match, hff, Prod.mk.injEq] at hm
      exact hm.1
  obtain ⟨hpm, as, bs, heq, hnot⟩ := List.find?_eq_some.mp hf
  refine ⟨hpm, ?_⟩
  intro m' hm' hmatch'
  subst heq
  rcases List.mem_append.mp hm' with ha | hb
  · have := hnot m' ha
    rw [hmatch'] at this
    simp at this
  · rcases List.mem_cons.mp hb with h' | hbs
    · subst h'; exact le_refl _
    · have hmb := (List.pairwise_append.mp hsorted).2.1
      exact (List.pairwise_cons.mp hmb).1 m' hbs

/-- **C1** (amended): the sequence table is maintained sorted by length
descending, and within one matcher call the first candidate whose tokens
equal the window's trailing slice wins, so no strictly longer matching
candidate is passed over *in that call*.  But matching runs after every
event: in the claimed scenario (`[button_0] -> "a"`, `[button_0, button_1]
-> "b"`), the length-1 sequence already matches when `button_0` arrives, so
the trace `button_0, button_1` produces exactly one execution — of `"a"`,
not `"b"` — and the window afterwards holds the lone `button_1` entry. -/
theorem C1_longest_match_scan :
    (∀ fetched, List.Pairwise lenDesc (load_mappings fetched).2) ∧
    (∀ (seqs : List SeqMapping) (h : List (String × ℤ)) m rest,
      List.Pairwise lenDesc seqs →
      check_sequence_match seqs h = (some m, rest) →
      seqMatchesAt m (recentOf h) = true ∧
      ∀ m' ∈ seqs, seqMatchesAt m' (recentOf h) = true →
        m'.sequence.length ≤ m.sequence.length) ∧
    ((run (loadedState C1fetch) [.button 0 0, .button 1 250]).executed = ["a"] ∧
     (run (loadedState C1fetch) [.button 0 0, .button 1 250]).key_history =
       [("button_1", 250)]) := by
  exact ⟨load_mappings_pairwise,
    fun seqs h m rest hs hm => check_match_first seqs h m rest hs hm,
    by decide, by decide⟩

/-- Witness for C1: in the C1 configuration the matcher call on the window
`[button_0]` returns the length-1 mapping, it matches the trailing slice,
and every matching candidate in the table is no longer than it. -/
theorem C1_longest_match_scan_witness :
    seqMatchesAt { sequence := ["button_0"], action := "a", name := "" }
        (recentOf [("button_0", 0)]) = true ∧
    ∀ m' ∈ (load_mappings C1fetch).2,
      seqMatchesAt m' (recentOf [("button_0", 0)]) = true →
      m'.sequence.length ≤
        ({ sequence := ["button_0"], action := "a", name := "" } : SeqMapping).sequence.length :=
  C1_longest_match_scan.2.1 (load_mappings C1fetch).2 [("button_0", 0)]
    { sequence := ["button_0"], action := "a", name := "" } []
    (C1_longest_match_scan.1 C1fetch) (by decide)
